import Mathlib

/-!
Verification of the DNS question-section reader from `dnsparse/src/question.rs`.

The buffer is modelled as a `List Nat` of bytes.  Rust operations that can
panic (unchecked indexing `buf[i]`, slicing `buf[i..j]`) are modelled by
checking bounds explicitly and returning a `crash` outcome; loops that the
source writes as unbounded `loop { .. }` are modelled with an explicit fuel
parameter whose exhaustion is a distinguished `timeout` outcome, so that
non-termination of the source loop is expressible as `timeout` for every
fuel value.
-/

/-- Outcome of one of the unbounded traversal loops of the source:
`ok` is a normal return, `crash` models a Rust panic (out-of-bounds index
or slice), `timeout` means the fuel ran out before the loop returned. -/
inductive TravResult (α : Type) where
  | ok (a : α)
  | crash
  | timeout
deriving Repr, DecidableEq

/-- `is_pointer` from the source: the top two bits of the length byte are set. -/
def is_pointer (len : Nat) : Bool :=
  len / 64 == 3

/-- `mask_len` from the source: the low six bits of the length byte. -/
def mask_len (len : Nat) : Nat :=
  len % 64

/-- `u8::to_ascii_lowercase`: fold an ASCII upper-case byte to lower case. -/
def toAsciiLowercase (c : Nat) : Nat :=
  if 65 ≤ c ∧ c ≤ 90 then c + 32 else c

/-- `<[u8]>::eq_ignore_ascii_case`: equality of byte slices up to ASCII case. -/
def eq_ignore_ascii_case (a b : List Nat) : Bool :=
  a.map toAsciiLowercase == b.map toAsciiLowercase

/-- The `QuestionName` view from the source: a buffer plus the offset where the
name's label chain begins.  The stored `end_` bound is kept because the source
stores it, but (as in the source) no traversal ever consults it. -/
structure QuestionName where
  buf : List Nat
  start : Nat
  end_ : Nat
deriving Repr, DecidableEq

/-- The body of `impl fmt::Display for QuestionName`, with fuel.  The rendered
text is accumulated as a byte list `acc` (the formatter of the source).  Each
loop iteration reads `buf[i]`; a pointer byte jumps to the 14-bit target
`(len <<< 8) + buf[i+1]`; a zero length returns the accumulated text; otherwise
a `.` separator is emitted whenever `i ≠ start`, then the `len` label bytes
`buf[i+1 .. i+1+len]` are emitted. -/
def QuestionName.displayFuel (q : QuestionName) : Nat → Nat → List Nat → TravResult (List Nat)
  | 0, _, _ => .timeout
  | fuel + 1, i, acc =>
    match q.buf[i]? with
    | none => .crash
    | some pointer_or_len =>
      let len := mask_len pointer_or_len
      if is_pointer pointer_or_len then
        match q.buf[i + 1]? with
        | none => .crash
        | some b2 => q.displayFuel fuel (len * 256 + b2) acc
      else if len = 0 then
        .ok acc
      else
        let acc1 := if i ≠ q.start then acc ++ [46] else acc
        if i + 1 + len ≤ q.buf.length then
          q.displayFuel fuel (i + 1 + len) (acc1 ++ (q.buf.drop (i + 1)).take len)
        else
          .crash

/-- The body of `impl PartialEq<&str> for QuestionName`, with fuel.  `other` is
the byte sequence of the compared string, `i` the buffer cursor and `oi` the
string cursor (`other_i` in the source). -/
def QuestionName.eqFuel (q : QuestionName) (other : List Nat) : Nat → Nat → Nat → TravResult Bool
  | 0, _, _ => .timeout
  | fuel + 1, i, oi =>
    match q.buf[i]? with
    | none => .crash
    | some pointer_or_len =>
      let len := mask_len pointer_or_len
      if is_pointer pointer_or_len then
        match q.buf[i + 1]? with
        | none => .crash
        | some b2 => q.eqFuel other fuel (len * 256 + b2) oi
      else if len = 0 then
        .ok (decide (oi = other.length))
      else if oi ≠ 0 ∧ other[oi]? ≠ some 46 then
        .ok false
      else
        let oi := if oi = 0 then oi else oi + 1
        if oi + len ≤ other.length then
          if i + 1 + len ≤ q.buf.length then
            if eq_ignore_ascii_case ((q.buf.drop (i + 1)).take len) ((other.drop oi).take len) then
              q.eqFuel other fuel (i + 1 + len) (oi + len)
            else
              .ok false
          else
            .crash
        else
          .ok false

/-- The `Question` view from the source: a buffer plus the start offset of the
encoded name and the end offset one past the 4-byte type/class tail. -/
structure Question where
  buf : List Nat
  start : Nat
  end_ : Nat
deriving Repr, DecidableEq

/-- `Question::name` from the source. -/
def Question.name (q : Question) : QuestionName :=
  { buf := q.buf, start := q.start, end_ := q.end_ - 5 }

/-- `Question::as_bytes` from the source: the sub-range `[start, end)`. -/
def Question.as_bytes (q : Question) : List Nat :=
  (q.buf.take q.end_).drop q.start

/-- Modelled from the spec: `QueryClass` lives in the crate root, which is not
among the provided sources; the spec fixes it as a 16-bit code, so its
`size_of` is 2 bytes. -/
def sizeOfQueryClass : Nat := 2

/-- Modelled from the spec: `QueryKind` lives in the crate root, which is not
among the provided sources; the spec fixes it as a 16-bit code, so its
`size_of` is 2 bytes. -/
def sizeOfQueryKind : Nat := 2

/-- `read_label` from the source.  Returns `none` on failure, otherwise
`some (last, j)` where `last` says whether this was the chain's terminal
label and `j` is the advanced cursor. -/
def read_label (buf : List Nat) (i : Nat) : Option (Bool × Nat) :=
  match buf[i]? with
  | some pointer_or_len =>
    if is_pointer pointer_or_len then
      if i + 1 + 1 < buf.length then some (true, i + 1 + 1) else none
    else
      let part_len := mask_len pointer_or_len
      some (part_len == 0, i + 1 + part_len)
  | none => none

/-- `read_query_class_and_kind` from the source: require 4 more bytes for the
type and class codes and advance past them. -/
def read_query_class_and_kind (buf : List Nat) (i : Nat) : Option Nat :=
  if i + sizeOfQueryClass + sizeOfQueryKind ≤ buf.length then
    some (i + sizeOfQueryClass + sizeOfQueryKind)
  else
    none

/-- The label loop of `read_question`, made structural with a fuel argument.
Each non-terminal label strictly advances the cursor while staying inside the
buffer, so `buf.length + 1` fuel always suffices (`readQuestionAux_irrel`). -/
def readQuestionAux (buf : List Nat) : Nat → Nat → Option Nat
  | 0, _ => none
  | fuel + 1, i =>
    match read_label buf i with
    | none => none
    | some (true, j) => read_query_class_and_kind buf j
    | some (false, j) => readQuestionAux buf fuel j

/-- `read_question` from the source: returns the cursor one past a complete
question record, or `none` on failure. -/
def read_question (buf : List Nat) (i : Nat) : Option Nat :=
  readQuestionAux buf (buf.length + 1) i

/-- The `Questions` iterator state from the source. -/
structure Questions where
  question_count : Nat
  current_question : Nat
  buf : List Nat
  buf_i : Nat
deriving Repr, DecidableEq

/-- Outcome of one `Questions::next` call: `done` is iterator exhaustion
(`None`), `crash` models the `assert!` aborting on scanner failure, and
`item` carries the yielded question together with the successor state. -/
inductive NextResult where
  | done
  | crash
  | item (q : Question) (s : Questions)
deriving Repr, DecidableEq

/-- `Questions::next` from the source: exhaustion check, then
`assert!(read_question(..))` — which aborts on scanner failure — then the
question view spanning `[buf_i, i)` is yielded and the cursor advanced. -/
def Questions.next (s : Questions) : NextResult :=
  if s.current_question ≥ s.question_count then
    .done
  else
    match read_question s.buf s.buf_i with
    | none => .crash
    | some i =>
      .item { buf := s.buf, start := s.buf_i, end_ := i }
        { question_count := s.question_count, current_question := s.current_question + 1,
          buf := s.buf, buf_i := i }

/-- Run the iterator `n` times, collecting the yielded questions; `none` if it
stops early (exhaustion or an aborted scan). -/
def runQuestions : Questions → Nat → Option (List Question × Questions)
  | s, 0 => some ([], s)
  | s, n + 1 =>
    match s.next with
    | .item q s' =>
      match runQuestions s' n with
      | some (qs, s'') => some (q :: qs, s'')
      | none => none
    | _ => none

/-- The question views expected for a boundary chain: starting at `i`, each
boundary in `bs` closes one view and opens the next. -/
def viewsOf (buf : List Nat) : Nat → List Nat → List Question
  | _, [] => []
  | i, j :: rest => { buf := buf, start := i, end_ := j } :: viewsOf buf j rest

/-- `questionChain buf i bs` says the scanner accepts one question record per
boundary: `read_question` sends `i` to the first boundary, that one to the
second, and so on. -/
def questionChain (buf : List Nat) : Nat → List Nat → Bool
  | _, [] => true
  | i, j :: rest => read_question buf i == some j && questionChain buf j rest

/-- One well-formed label of content `l` encoded at offset `i`: a length byte
in `1..=63` followed by the `l.length` content bytes, all inside the buffer. -/
def labelAt (buf : List Nat) (i : Nat) (l : List Nat) : Bool :=
  decide (1 ≤ l.length) && decide (l.length ≤ 63) &&
    (buf[i]? == some l.length) &&
    ((buf.drop (i + 1)).take l.length == l) &&
    decide (i + 1 + l.length ≤ buf.length)

/-- A run of well-formed labels encoded back-to-back starting at offset `i`
(no terminator included). -/
def labelsAt (buf : List Nat) : Nat → List (List Nat) → Bool
  | _, [] => true
  | i, l :: ls => labelAt buf i l && labelsAt buf (i + 1 + l.length) ls

/-- The number of buffer bytes occupied by a run of encoded labels (one length
byte plus the content bytes for each label). -/
def labelsSize (ls : List (List Nat)) : Nat :=
  (ls.map (fun l => 1 + l.length)).sum

/-- A complete pointer-free name encoding at offset `i`: the labels of `ls`
back-to-back followed by a zero-length terminator byte. -/
def chainAt (buf : List Nat) (i : Nat) (ls : List (List Nat)) : Bool :=
  labelsAt buf i ls && (buf[i + labelsSize ls]? == some 0)

/-- The dotted text of a label run as the renderer produces it: a `.` (byte 46)
before each label except, when `firstDot` is `false`, the first. -/
def dotted (firstDot : Bool) : List (List Nat) → List Nat
  | [] => []
  | l :: ls => (if firstDot then [46] else []) ++ l ++ dotted true ls

/-- The labels' text joined by `.` separators — the output shape the spec
describes for rendering a pointer-free name. -/
def dotJoin : List (List Nat) → List Nat
  | [] => []
  | [l] => l
  | l :: ls => l ++ 46 :: dotJoin ls

/-! ### Basic facts about the scanner -/

lemma get?_some_lt {buf : List Nat} {i b : Nat} (h : buf[i]? = some b) :
    i < buf.length := by
  by_contra hc
  rw [List.getElem?_eq_none (by omega)] at h
  exact absurd h (by simp)

lemma read_label_bounds {buf : List Nat} {i : Nat} {b : Bool} {j : Nat}
    (h : read_label buf i = some (b, j)) : i < buf.length ∧ i + 1 ≤ j := by
  cases hg : buf[i]? with
  | none => simp [read_label, hg] at h
  | some p =>
    have hi := get?_some_lt hg
    refine ⟨hi, ?_⟩
    by_cases hp : is_pointer p
    · by_cases hb : i + 1 + 1 < buf.length
      · simp [read_label, hg, hp, hb] at h
        omega
      · simp [read_label, hg, hp, hb] at h
    · simp [read_label, hg, hp] at h
      obtain ⟨-, h2⟩ := h
      omega

lemma read_label_false_bounds {buf : List Nat} {i j : Nat}
    (h : read_label buf i = some (false, j)) : i < buf.length ∧ i + 2 ≤ j := by
  cases hg : buf[i]? with
  | none => simp [read_label, hg] at h
  | some p =>
    have hi := get?_some_lt hg
    refine ⟨hi, ?_⟩
    by_cases hp : is_pointer p
    · by_cases hb : i + 1 + 1 < buf.length
      · simp [read_label, hg, hp, hb] at h
      · simp [read_label, hg, hp, hb] at h
    · simp [read_label, hg, hp] at h
      obtain ⟨h1, h2⟩ := h
      have : mask_len p ≠ 0 := by simpa using h1
      omega

lemma read_query_class_and_kind_bounds {buf : List Nat} {i j : Nat}
    (h : read_query_class_and_kind buf i = some j) : j = i + 4 ∧ j ≤ buf.length := by
  by_cases hb : i + sizeOfQueryClass + sizeOfQueryKind ≤ buf.length
  · simp [read_query_class_and_kind, hb] at h
    simp [sizeOfQueryClass, sizeOfQueryKind] at hb h
    omega
  · simp [read_query_class_and_kind, hb] at h

lemma readQuestionAux_bounds : ∀ (fuel : Nat) (buf : List Nat) (i j : Nat),
    readQuestionAux buf fuel i = some j → i + 5 ≤ j ∧ j ≤ buf.length := by
  intro fuel
  induction fuel with
  | zero => intro buf i j h; simp [readQuestionAux] at h
  | succ n ih =>
    intro buf i j h
    cases hl : read_label buf i with
    | none => simp [readQuestionAux, hl] at h
    | some bj =>
      obtain ⟨b, k⟩ := bj
      cases b with
      | true =>
        simp [readQuestionAux, hl] at h
        have h1 := read_label_bounds hl
        have h2 := read_query_class_and_kind_bounds h
        omega
      | false =>
        simp [readQuestionAux, hl] at h
        have h1 := read_label_false_bounds hl
        have h2 := ih buf k j h
        omega

/-- Fuel irrelevance for the scanner's label loop: any fuel exceeding the
number of bytes after the cursor gives the same answer, which certifies that
the `buf.length + 1` fuel used by `read_question` models the source's
unbounded loop exactly. -/
lemma readQuestionAux_irrel : ∀ (f1 : Nat) (buf : List Nat) (i : Nat) (f2 : Nat),
    buf.length - i < f1 → buf.length - i < f2 →
    readQuestionAux buf f1 i = readQuestionAux buf f2 i := by
  intro f1
  induction f1 with
  | zero => intro buf i f2 h1 h2; omega
  | succ n ih =>
    intro buf i f2 h1 h2
    cases f2 with
    | zero => omega
    | succ m =>
      cases hl : read_label buf i with
      | none => simp [readQuestionAux, hl]
      | some bj =>
        obtain ⟨b, k⟩ := bj
        cases b with
        | true => simp [readQuestionAux, hl]
        | false =>
          have hb := read_label_false_bounds hl
          simp only [readQuestionAux, hl]
          exact ih buf k m (by omega) (by omega)

/-! ### C1, error handling of `Questions::next` -/

/-- C1: the claim says `Questions::next` converts a failure of `read_question`
into a structured, recoverable error value and never aborts.  On the empty
buffer with one expected question the scanner fails and `next` instead hits
its `assert!`, i.e. it aborts the process (modelled as `.crash`), so the code
contradicts the claim. -/
theorem next_aborts_on_scanner_failure :
    read_question ([] : List Nat) 0 = none ∧
    Questions.next ⟨1, 0, [], 0⟩ = .crash := by
  exact ⟨rfl, rfl⟩

/-! ### C2, termination of the name traversals -/

/-- C2: the claim says rendering and string comparison terminate for every
buffer and start offset.  The two-byte buffer `[0xC0, 0x00]` is a compression
pointer whose target is offset 0, i.e. itself: both traversal loops follow it
forever, so for every fuel value the fuel runs out and the code contradicts
the claim. -/
theorem display_eq_self_pointer_loops_forever :
    (∀ (fuel : Nat) (acc : List Nat),
      (QuestionName.mk [192, 0] 0 0).displayFuel fuel 0 acc = .timeout) ∧
    (∀ (other : List Nat) (fuel oi : Nat),
      (QuestionName.mk [192, 0] 0 0).eqFuel other fuel 0 oi = .timeout) := by
  constructor
  · intro fuel
    induction fuel with
    | zero => intro acc; rfl
    | succ n ih =>
      intro acc
      have h : (QuestionName.mk [192, 0] 0 0).displayFuel (n + 1) 0 acc =
          (QuestionName.mk [192, 0] 0 0).displayFuel n 0 acc := rfl
      rw [h]
      exact ih acc
  · intro other fuel
    induction fuel with
    | zero => intro oi; rfl
    | succ n ih =>
      intro oi
      have h : (QuestionName.mk [192, 0] 0 0).eqFuel other (n + 1) 0 oi =
          (QuestionName.mk [192, 0] 0 0).eqFuel other n 0 oi := rfl
      rw [h]
      exact ih oi

/-! ### C3, bounds checking of the name traversals -/

/-- C3: the claim says every byte access of the rendering and equality
traversals is bounds-checked, with out-of-range accesses turned into
structured errors.  On the buffer `[0xC0, 0xFF]`, a pointer to offset 255,
both traversals read `buf[255]` without any check, which in the source is an
unchecked index that panics (modelled as `.crash`), so the code contradicts
the claim. -/
theorem display_eq_unchecked_out_of_bounds :
    (QuestionName.mk [192, 255] 0 0).displayFuel 2 0 [] = .crash ∧
    (QuestionName.mk [192, 255] 0 0).eqFuel [] 2 0 0 = .crash := by
  exact ⟨rfl, rfl⟩

/-! ### C9, the scanner's pointer step -/

/-- C9 counterexample: the claim says the label step fails only when a byte it
needs lies beyond the buffer's end.  In `[0xC0, 0x00]` the pointer byte is at
offset 0 and its second byte at offset 1 is within the two-byte buffer, yet
`read_label` fails, because its guard `i + 1 + 1 < buf.len()` is strict. -/
theorem read_label_pointer_at_end_cex :
    ([192, 0] : List Nat)[0]? = some 192 ∧ is_pointer 192 = true ∧
    0 + 1 < ([192, 0] : List Nat).length ∧
    read_label [192, 0] 0 = none := by
  exact ⟨rfl, rfl, by decide, rfl⟩

/-- C9 amended: at a pointer byte the label step advances the cursor by
exactly 2 and reports the label terminal when at least one byte exists beyond
the pointer's second byte (`i + 2 < len(buffer)`); it fails whenever
`i + 2 ≥ len(buffer)`, hence also when the pointer's second byte is the
buffer's final byte. -/
theorem read_label_pointer_amended : ∀ (buf : List Nat) (i b : Nat),
    buf[i]? = some b → is_pointer b = true →
    (i + 2 < buf.length → read_label buf i = some (true, i + 2)) ∧
    (buf.length ≤ i + 2 → read_label buf i = none) := by
  intro buf i b hb hp
  constructor
  · intro h
    have hlt : i + 1 + 1 < buf.length := by omega
    simp [read_label, hb, hp, hlt]
  · intro h
    have hlt : ¬ (i + 1 + 1 < buf.length) := by omega
    simp [read_label, hb, hp, hlt]

/-- Witness for the amended C9 theorem at the concrete buffer
`[0xC0, 0x00, 0x00]`. -/
theorem read_label_pointer_amended_witness :
    read_label [192, 0, 0] 0 = some (true, 0 + 2) :=
  (read_label_pointer_amended [192, 0, 0] 0 192 (by decide) (by decide)).1 (by decide)

/-! ### C4, bounds of a scanned question record -/

/-- C4: whenever `read_question` succeeds the final cursor is at least 5 bytes
past the initial cursor and at most the buffer length, and every question view
yielded by `Questions::next` satisfies `start < end ≤ len(buffer)` and spans
exactly the record the scanner accepted at its start offset. -/
theorem question_record_bounds :
    (∀ (buf : List Nat) (i j : Nat), read_question buf i = some j →
      i + 5 ≤ j ∧ j ≤ buf.length) ∧
    (∀ (s : Questions) (q : Question) (s' : Questions), s.next = .item q s' →
      q.buf = s.buf ∧ q.start = s.buf_i ∧ q.start < q.end_ ∧ q.end_ ≤ s.buf.length ∧
      read_question s.buf q.start = some q.end_) := by
  have h1 : ∀ (buf : List Nat) (i j : Nat), read_question buf i = some j →
      i + 5 ≤ j ∧ j ≤ buf.length := by
    intro buf i j h
    exact readQuestionAux_bounds (buf.length + 1) buf i j h
  refine ⟨h1, ?_⟩
  intro s q s' h
  by_cases he : s.current_question ≥ s.question_count
  · simp [Questions.next, he] at h
  · cases hr : read_question s.buf s.buf_i with
    | none => simp [Questions.next, he, hr] at h
    | some i =>
      simp [Questions.next, he, hr] at h
      obtain ⟨hq, -⟩ := h
      have hb := h1 s.buf s.buf_i i hr
      subst hq
      refine ⟨rfl, rfl, ?_, ?_, ?_⟩
      · show s.buf_i < i
        omega
      · show i ≤ s.buf.length
        omega
      · show read_question s.buf s.buf_i = some i
        exact hr

/-- Witness for C4 at a concrete one-record buffer. -/
theorem question_record_bounds_witness :
    (0 : Nat) + 5 ≤ 5 ∧ 5 ≤ ([0, 0, 1, 0, 1] : List Nat).length :=
  question_record_bounds.1 [0, 0, 1, 0, 1] 0 5 (by decide)

/-! ### C5, tiling a region of well-formed records -/

lemma runQuestions_chain : ∀ (bs : List Nat) (buf : List Nat) (i c : Nat),
    questionChain buf i bs = true →
    runQuestions ⟨c + bs.length, c, buf, i⟩ bs.length =
      some (viewsOf buf i bs, ⟨c + bs.length, c + bs.length, buf, bs.getLastD i⟩) := by
  intro bs
  induction bs with
  | nil =>
    intro buf i c h
    simp [runQuestions, viewsOf, List.getLastD]
  | cons j rest ih =>
    intro buf i c h
    simp only [questionChain, Bool.and_eq_true, beq_iff_eq] at h
    obtain ⟨h1, h2⟩ := h
    have hne : ¬ (c ≥ c + (j :: rest).length) := by
      simp only [List.length_cons]
      omega
    have hstep : Questions.next ⟨c + (j :: rest).length, c, buf, i⟩ =
        .item ⟨buf, i, j⟩ ⟨c + (j :: rest).length, c + 1, buf, j⟩ := by
      simp [Questions.next, hne, h1]
    have hcount : c + (j :: rest).length = (c + 1) + rest.length := by
      simp only [List.length_cons]
      omega
    have hlen : (j :: rest).length = rest.length + 1 := by simp
    have htail := ih buf j (c + 1) h2
    rw [hcount] at hstep
    rw [hcount, hlen, viewsOf, List.getLastD_cons]
    rw [runQuestions, hstep]
    simp [htail]

/-- C5: for a buffer holding, per the scanner, one well-formed question record
between each pair of consecutive boundaries of `bs` starting at offset `i0`, a
sequence configured with count `bs.length` yields exactly `bs.length` views,
each view starting where the previous one ended (the first at `i0`) and the
last ending at the region's end, and reports no error; afterwards the iterator
is cleanly exhausted. -/
theorem questions_tile_wellformed_region :
    ∀ (buf : List Nat) (i0 : Nat) (bs : List Nat), questionChain buf i0 bs = true →
      runQuestions ⟨bs.length, 0, buf, i0⟩ bs.length =
        some (viewsOf buf i0 bs, ⟨bs.length, bs.length, buf, bs.getLastD i0⟩) ∧
      Questions.next ⟨bs.length, bs.length, buf, bs.getLastD i0⟩ = .done := by
  intro buf i0 bs h
  constructor
  · have := runQuestions_chain bs buf i0 0 h
    simpa using this
  · simp [Questions.next]

/-- Witness for C5 at a concrete buffer holding two question records
back-to-back (a root name and a one-label name). -/
theorem questions_tile_wellformed_region_witness :
    runQuestions ⟨2, 0, [0, 0, 1, 0, 1, 1, 97, 0, 0, 1, 0, 1], 0⟩ 2 =
      some ([⟨[0, 0, 1, 0, 1, 1, 97, 0, 0, 1, 0, 1], 0, 5⟩,
             ⟨[0, 0, 1, 0, 1, 1, 97, 0, 0, 1, 0, 1], 5, 12⟩],
        ⟨2, 2, [0, 0, 1, 0, 1, 1, 97, 0, 0, 1, 0, 1], 12⟩) ∧
    Questions.next ⟨2, 2, [0, 0, 1, 0, 1, 1, 97, 0, 0, 1, 0, 1], 12⟩ = .done :=
  questions_tile_wellformed_region [0, 0, 1, 0, 1, 1, 97, 0, 0, 1, 0, 1] 0 [5, 12] (by decide)

/-! ### Rendering of pointer-free label chains -/

lemma labelAt_facts {buf : List Nat} {i : Nat} {l : List Nat} (h : labelAt buf i l = true) :
    buf[i]? = some l.length ∧ 1 ≤ l.length ∧ l.length ≤ 63 ∧
    (buf.drop (i + 1)).take l.length = l ∧ i + 1 + l.length ≤ buf.length := by
  simp only [labelAt, Bool.and_eq_true, beq_iff_eq, decide_eq_true_eq] at h
  tauto

lemma labelsSize_cons (l : List Nat) (ls : List (List Nat)) :
    labelsSize (l :: ls) = 1 + l.length + labelsSize ls := by
  simp [labelsSize]

lemma labelsSize_pos {ls : List (List Nat)} (h : ls ≠ []) : 1 ≤ labelsSize ls := by
  cases ls with
  | nil => exact absurd rfl h
  | cons l ls => rw [labelsSize_cons]; omega

lemma dotted_congr {ls : List (List Nat)} (d1 d2 : Bool) (h : ls ≠ [] → d1 = d2) :
    dotted d1 ls = dotted d2 ls := by
  cases ls with
  | nil => rfl
  | cons l ls => rw [h (by simp)]

lemma dotted_true_cons : ∀ (l : List Nat) (ls : List (List Nat)),
    dotted true (l :: ls) = 46 :: dotJoin (l :: ls) := by
  intro l ls
  induction ls generalizing l with
  | nil => simp [dotted, dotJoin]
  | cons l2 ls2 ih =>
    rw [show dotted true (l :: l2 :: ls2) = [46] ++ l ++ dotted true (l2 :: ls2) from rfl,
      ih l2]
    simp [dotJoin]

lemma dotted_false_eq_dotJoin : ∀ ls, dotted false ls = dotJoin ls := by
  intro ls
  cases ls with
  | nil => rfl
  | cons l ls =>
    cases ls with
    | nil => simp [dotted, dotJoin]
    | cons l2 ls2 =>
      rw [show dotted false (l :: l2 :: ls2) = l ++ dotted true (l2 :: ls2) from rfl,
        dotted_true_cons l2 ls2]
      simp [dotJoin]

/-- Walking a run of encoded labels: rendering from their start offset emits
the labels (each preceded by a `.` iff its offset differs from `start`) and
continues at the offset just past the run, having spent one fuel per label. -/
lemma displayFuel_labelsAt : ∀ (ls : List (List Nat)) (q : QuestionName) (i : Nat)
    (acc : List Nat) (fuel : Nat),
    labelsAt q.buf i ls = true →
    (q.start ≤ i ∨ i + labelsSize ls ≤ q.start) →
    q.displayFuel (fuel + ls.length) i acc =
      q.displayFuel fuel (i + labelsSize ls) (acc ++ dotted (i != q.start) ls) := by
  intro ls
  induction ls with
  | nil =>
    intro q i acc fuel h hpos
    simp [labelsSize, dotted]
  | cons l ls ih =>
    intro q i acc fuel h hpos
    simp only [labelsAt, Bool.and_eq_true] at h
    obtain ⟨hl, hrest⟩ := h
    obtain ⟨hg, h1, h63, hsl, hbd⟩ := labelAt_facts hl
    have hnp : is_pointer l.length = false := by
      have hd : l.length / 64 = 0 := Nat.div_eq_of_lt (by omega)
      simp [is_pointer, hd]
    have hml : mask_len l.length = l.length := Nat.mod_eq_of_lt (by omega)
    have hne0 : l.length ≠ 0 := by omega
    rw [List.length_cons, ← Nat.add_assoc, QuestionName.displayFuel, hg]
    simp only [hnp, hml, hne0, hsl, hbd, Bool.false_eq_true, if_false, if_neg, ite_true,
      if_true, reduceIte]
    have hpos' : q.start ≤ i + 1 + l.length ∨ i + 1 + l.length + labelsSize ls ≤ q.start := by
      rcases hpos with h | h
      · left; omega
      · right; rw [labelsSize_cons] at h; omega
    rw [ih q (i + 1 + l.length) _ fuel hrest hpos']
    have hpe : i + 1 + l.length + labelsSize ls = i + labelsSize (l :: ls) := by
      rw [labelsSize_cons]; omega
    rw [hpe]
    congr 1
    have hd2 : dotted ((i + 1 + l.length) != q.start) ls = dotted true ls := by
      apply dotted_congr
      intro hne
      have hlt : i + 1 + l.length ≠ q.start := by
        rcases hpos with h | h
        · omega
        · rw [labelsSize_cons] at h
          have := labelsSize_pos hne
          omega
      simp [hlt]
    rw [hd2]
    by_cases hi : i = q.start
    · rw [if_neg (by simp [hi])]
      simp [dotted, hi]
    · rw [if_pos hi]
      simp [dotted, hi]

/-- Rendering a complete pointer-free chain from offset `i` returns the dotted
labels appended to the accumulator. -/
lemma displayFuel_chainAt : ∀ (ls : List (List Nat)) (q : QuestionName) (i : Nat)
    (acc : List Nat) (fuel : Nat),
    chainAt q.buf i ls = true →
    (q.start ≤ i ∨ i + labelsSize ls ≤ q.start) →
    q.displayFuel (fuel + ls.length + 1) i acc = .ok (acc ++ dotted (i != q.start) ls) := by
  intro ls q i acc fuel h hpos
  simp only [chainAt, Bool.and_eq_true, beq_iff_eq] at h
  obtain ⟨hl, hterm⟩ := h
  have he : fuel + ls.length + 1 = (fuel + 1) + ls.length := by omega
  rw [he, displayFuel_labelsAt ls q i acc (fuel + 1) hl hpos]
  rw [QuestionName.displayFuel, hterm]
  simp [is_pointer, mask_len]

/-! ### C7, rendering a pointer-free name -/

/-- C7: for every name encoded as a pointer-free chain of length-prefixed
labels followed by a zero-length terminator, rendering produces the labels'
text in encoding order joined by `.` separators. -/
theorem display_renders_dotted_labels :
    ∀ (q : QuestionName) (ls : List (List Nat)) (fuel : Nat),
    chainAt q.buf q.start ls = true → ls.length + 1 ≤ fuel →
    q.displayFuel fuel q.start [] = .ok (dotJoin ls) := by
  intro q ls fuel h hf
  obtain ⟨k, rfl⟩ := Nat.exists_eq_add_of_le hf
  have he : ls.length + 1 + k = k + ls.length + 1 := by omega
  rw [he, displayFuel_chainAt ls q q.start [] k h (Or.inl le_rfl)]
  simp [dotted_false_eq_dotJoin]

/-- Witness for C7: the labels `www`, `example`, `com` render to
`www.example.com`. -/
theorem display_renders_dotted_labels_witness :
    (QuestionName.mk [3, 119, 119, 119, 7, 101, 120, 97, 109, 112, 108, 101,
        3, 99, 111, 109, 0] 0 0).displayFuel 4 0 [] =
      .ok (dotJoin [[119, 119, 119], [101, 120, 97, 109, 112, 108, 101], [99, 111, 109]]) :=
  display_renders_dotted_labels _
    [[119, 119, 119], [101, 120, 97, 109, 112, 108, 101], [99, 111, 109]] 4
    (by decide) (by decide)

/-! ### Step equations for the rendering loop -/

lemma displayFuel_step_oob {q : QuestionName} {i : Nat} (fuel : Nat) (acc : List Nat)
    (hg : q.buf[i]? = none) :
    q.displayFuel (fuel + 1) i acc = .crash := by
  simp [QuestionName.displayFuel, hg]

lemma displayFuel_step_pointer {q : QuestionName} {i p b2 : Nat} (fuel : Nat) (acc : List Nat)
    (hg : q.buf[i]? = some p) (hp : is_pointer p = true) (hg2 : q.buf[i + 1]? = some b2) :
    q.displayFuel (fuel + 1) i acc = q.displayFuel fuel (mask_len p * 256 + b2) acc := by
  simp [QuestionName.displayFuel, hg, hp, hg2]

lemma displayFuel_step_pointer_oob {q : QuestionName} {i p : Nat} (fuel : Nat) (acc : List Nat)
    (hg : q.buf[i]? = some p) (hp : is_pointer p = true) (hg2 : q.buf[i + 1]? = none) :
    q.displayFuel (fuel + 1) i acc = .crash := by
  simp [QuestionName.displayFuel, hg, hp, hg2]

lemma displayFuel_step_terminator {q : QuestionName} {i p : Nat} (fuel : Nat) (acc : List Nat)
    (hg : q.buf[i]? = some p) (hp : is_pointer p = false) (hz : mask_len p = 0) :
    q.displayFuel (fuel + 1) i acc = .ok acc := by
  simp [QuestionName.displayFuel, hg, hp, hz]

lemma displayFuel_step_label {q : QuestionName} {i p : Nat} (fuel : Nat) (acc : List Nat)
    (hg : q.buf[i]? = some p) (hp : is_pointer p = false) (hz : mask_len p ≠ 0)
    (hbd : i + 1 + mask_len p ≤ q.buf.length) :
    q.displayFuel (fuel + 1) i acc =
      q.displayFuel fuel (i + 1 + mask_len p)
        ((if i ≠ q.start then acc ++ [46] else acc) ++ (q.buf.drop (i + 1)).take (mask_len p)) := by
  by_cases hi : i = q.start
  · subst hi
    simp [QuestionName.displayFuel, hg, hp, hz, hbd]
  · simp [QuestionName.displayFuel, hg, hp, hz, hbd, hi]

lemma displayFuel_step_label_oob {q : QuestionName} {i p : Nat} (fuel : Nat) (acc : List Nat)
    (hg : q.buf[i]? = some p) (hp : is_pointer p = false) (hz : mask_len p ≠ 0)
    (hbd : ¬ (i + 1 + mask_len p ≤ q.buf.length)) :
    q.displayFuel (fuel + 1) i acc = .crash := by
  simp [QuestionName.displayFuel, hg, hp, hz, hbd]

/-! ### C10, leading separator when the name starts with a pointer -/

lemma displayFuel_head_dot_aux {q : QuestionName} {b : Nat}
    (hb : q.buf[q.start]? = some b) (hp : is_pointer b = true) :
    ∀ (fuel i : Nat) (acc out : List Nat),
    (acc = [] ∨ acc.head? = some 46) →
    q.displayFuel fuel i acc = .ok out →
    (out = [] ∨ out.head? = some 46) := by
  intro fuel
  induction fuel with
  | zero =>
    intro i acc out hacc h
    exact absurd h (by simp [QuestionName.displayFuel])
  | succ n ih =>
    intro i acc out hacc h
    cases hg : q.buf[i]? with
    | none =>
      rw [displayFuel_step_oob n acc hg] at h
      exact absurd h (by simp)
    | some p =>
      by_cases hpp : is_pointer p = true
      · cases hg2 : q.buf[i + 1]? with
        | none =>
          rw [displayFuel_step_pointer_oob n acc hg hpp hg2] at h
          exact absurd h (by simp)
        | some b2 =>
          rw [displayFuel_step_pointer n acc hg hpp hg2] at h
          exact ih _ acc out hacc h
      · have hpf : is_pointer p = false := by simpa using hpp
        by_cases hz : mask_len p = 0
        · rw [displayFuel_step_terminator n acc hg hpf hz] at h
          have hao : acc = out := by simpa using h
          rw [← hao]
          exact hacc
        · by_cases hbd : i + 1 + mask_len p ≤ q.buf.length
          · rw [displayFuel_step_label n acc hg hpf hz hbd] at h
            have hi : i ≠ q.start := by
              intro he
              rw [he, hb] at hg
              injection hg with hg'
              exact hpp (hg' ▸ hp)
            rw [if_pos hi] at h
            refine ih _ _ out ?_ h
            rcases hacc with h0 | h0
            · subst h0
              right
              simp
            · right
              cases acc with
              | nil => simp at h0
              | cons a tl =>
                simp only [List.head?_cons, Option.some.injEq] at h0
                subst h0
                simp
          · rw [displayFuel_step_label_oob n acc hg hpf hz hbd] at h
            exact absurd h (by simp)

/-- C10: whenever the byte at a name's start offset is itself a compression
pointer, any successfully rendered non-empty text begins with a `.` separator
before the first label's text, because the separator is emitted whenever the
current offset differs from the start offset. -/
theorem display_pointer_at_start_leading_dot :
    ∀ (q : QuestionName) (b fuel : Nat) (out : List Nat),
    q.buf[q.start]? = some b → is_pointer b = true →
    q.displayFuel fuel q.start [] = .ok out → out ≠ [] →
    out.head? = some 46 := by
  intro q b fuel out hb hp h hne
  rcases displayFuel_head_dot_aux hb hp fuel q.start [] out (Or.inl rfl) h with h0 | h0
  · exact absurd h0 hne
  · exact h0

/-- Witness for C10: a name at offset 5 that is just a pointer to the label
`foo` at offset 0 renders to `.foo`. -/
theorem display_pointer_at_start_leading_dot_witness :
    ([46, 102, 111, 111] : List Nat).head? = some 46 :=
  display_pointer_at_start_leading_dot
    (QuestionName.mk [3, 102, 111, 111, 0, 192, 0] 5 0) 192 10 [46, 102, 111, 111]
    (by decide) (by decide) (by decide) (by decide)

/-! ### C8, a pointer renders like the inlined name -/

lemma dotted_append : ∀ (ls qs : List (List Nat)) (d : Bool), ls ≠ [] →
    dotted d ls ++ dotted true qs = dotted d (ls ++ qs) := by
  intro ls
  induction ls with
  | nil => intro qs d h; exact absurd rfl h
  | cons l ls ih =>
    intro qs d h
    cases ls with
    | nil => simp [dotted]
    | cons l2 ls2 =>
      have hih := ih qs true (by simp)
      calc dotted d (l :: l2 :: ls2) ++ dotted true qs
          = ((if d then [46] else []) ++ l ++ dotted true (l2 :: ls2)) ++ dotted true qs := by
            rw [dotted]
        _ = (if d then [46] else []) ++ l ++ (dotted true (l2 :: ls2) ++ dotted true qs) := by
            simp [List.append_assoc]
        _ = (if d then [46] else []) ++ l ++ dotted true ((l2 :: ls2) ++ qs) := by rw [hih]
        _ = dotted d ((l :: l2 :: ls2) ++ qs) := by
            simp [dotted]

/-- C8: a name made of literal labels followed by a compression pointer to an
earlier, independently valid (pointer-free) name renders to exactly the same
text as any fully inlined encoding of the combined label chain. -/
theorem display_pointer_equals_inlined :
    ∀ (q q2 : QuestionName) (ls qs : List (List Nat)) (bp b2 t fuel fuel2 : Nat),
    ls ≠ [] →
    labelsAt q.buf q.start ls = true →
    q.buf[q.start + labelsSize ls]? = some bp →
    is_pointer bp = true →
    q.buf[q.start + labelsSize ls + 1]? = some b2 →
    t = mask_len bp * 256 + b2 →
    chainAt q.buf t qs = true →
    t + labelsSize qs + 1 ≤ q.start →
    chainAt q2.buf q2.start (ls ++ qs) = true →
    ls.length + qs.length + 2 ≤ fuel →
    (ls ++ qs).length + 1 ≤ fuel2 →
    q.displayFuel fuel q.start [] = q2.displayFuel fuel2 q2.start [] ∧
    q.displayFuel fuel q.start [] = .ok (dotJoin (ls ++ qs)) := by
  intro q q2 ls qs bp b2 t fuel fuel2 hne hls hbp hptr hb2 ht hqs hbefore hinl hf hf2
  have h2 : q2.displayFuel fuel2 q2.start [] = .ok (dotJoin (ls ++ qs)) := by
    obtain ⟨k, rfl⟩ := Nat.exists_eq_add_of_le hf2
    have he : (ls ++ qs).length + 1 + k = k + (ls ++ qs).length + 1 := by omega
    rw [he, displayFuel_chainAt (ls ++ qs) q2 q2.start [] k hinl (Or.inl le_rfl)]
    simp [dotted_false_eq_dotJoin]
  have h1 : q.displayFuel fuel q.start [] = .ok (dotJoin (ls ++ qs)) := by
    obtain ⟨k, rfl⟩ := Nat.exists_eq_add_of_le hf
    have he : ls.length + qs.length + 2 + k = (k + qs.length + 2) + ls.length := by omega
    rw [he, displayFuel_labelsAt ls q q.start [] (k + qs.length + 2) hls (Or.inl le_rfl)]
    have hsne : (q.start != q.start) = false := by simp
    rw [hsne]
    rw [show k + qs.length + 2 = (k + qs.length + 1) + 1 from by omega]
    rw [displayFuel_step_pointer (k + qs.length + 1) _ hbp hptr hb2]
    rw [← ht]
    have htlt : t < q.start := by omega
    have hpos : q.start ≤ t ∨ t + labelsSize qs ≤ q.start := Or.inr (by omega)
    rw [show k + qs.length + 1 = k + qs.length + 1 from rfl,
      displayFuel_chainAt qs q t _ k hqs hpos]
    have htne : (t != q.start) = true := by simp [htlt.ne]
    rw [htne]
    rw [show ([] : List Nat) ++ dotted false ls = dotted false ls from by simp]
    rw [dotted_append ls qs false hne, dotted_false_eq_dotJoin]
  exact ⟨h1.trans h2.symm, h1⟩

/-- Witness for C8: `www` + pointer to `com` renders like the inlined
`www.com`. -/
theorem display_pointer_equals_inlined_witness :
    (QuestionName.mk [3, 99, 111, 109, 0, 3, 119, 119, 119, 192, 0] 5 0).displayFuel 4 5 [] =
      (QuestionName.mk [3, 119, 119, 119, 3, 99, 111, 109, 0] 0 0).displayFuel 3 0 [] ∧
    (QuestionName.mk [3, 99, 111, 109, 0, 3, 119, 119, 119, 192, 0] 5 0).displayFuel 4 5 [] =
      .ok (dotJoin [[119, 119, 119], [99, 111, 109]]) :=
  display_pointer_equals_inlined
    (QuestionName.mk [3, 99, 111, 109, 0, 3, 119, 119, 119, 192, 0] 5 0)
    (QuestionName.mk [3, 119, 119, 119, 3, 99, 111, 109, 0] 0 0)
    [[119, 119, 119]] [[99, 111, 109]] 192 0 0 4 3
    (by decide) (by decide) (by decide) (by decide) (by decide) (by decide)
    (by decide) (by decide) (by decide) (by decide) (by decide)

/-! ### Step equations for the comparison loop -/

lemma eqFuel_step_terminator {q : QuestionName} {i p : Nat} (other : List Nat) (fuel oi : Nat)
    (hg : q.buf[i]? = some p) (hp : is_pointer p = false) (hz : mask_len p = 0) :
    q.eqFuel other (fuel + 1) i oi = .ok (decide (oi = other.length)) := by
  simp [QuestionName.eqFuel, hg, hp, hz]

lemma eqFuel_step_dot_mismatch {q : QuestionName} {i p : Nat} (other : List Nat) (fuel oi : Nat)
    (hg : q.buf[i]? = some p) (hp : is_pointer p = false) (hz : mask_len p ≠ 0)
    (h0 : oi ≠ 0) (hdot : other[oi]? ≠ some 46) :
    q.eqFuel other (fuel + 1) i oi = .ok false := by
  simp [QuestionName.eqFuel, hg, hp, hz, h0, hdot]

lemma eqFuel_step_label {q : QuestionName} {i p : Nat} (other : List Nat) (fuel oi oi2 : Nat)
    (hg : q.buf[i]? = some p) (hp : is_pointer p = false) (hz : mask_len p ≠ 0)
    (hoi : (oi = 0 ∧ oi2 = oi) ∨ (oi ≠ 0 ∧ other[oi]? = some 46 ∧ oi2 = oi + 1)) :
    q.eqFuel other (fuel + 1) i oi =
      (if oi2 + mask_len p ≤ other.length then
        if i + 1 + mask_len p ≤ q.buf.length then
          if eq_ignore_ascii_case ((q.buf.drop (i + 1)).take (mask_len p))
              ((other.drop oi2).take (mask_len p)) then
            q.eqFuel other fuel (i + 1 + mask_len p) (oi2 + mask_len p)
          else .ok false
        else .crash
      else .ok false) := by
  rcases hoi with ⟨h0, rfl⟩ | ⟨h0, hdot, rfl⟩
  · subst h0
    simp [QuestionName.eqFuel, hg, hp, hz]
  · simp [QuestionName.eqFuel, hg, hp, hz, h0, hdot]

/-! ### Helpers about case folding and list surgery -/

lemma toAsciiLowercase_eq_dot {c : Nat} : toAsciiLowercase c = 46 ↔ c = 46 := by
  unfold toAsciiLowercase
  split <;> omega

lemma append_eq_append_iff_len {α : Type} {A B C D : List α} (h : A.length = C.length) :
    A ++ B = C ++ D ↔ A = C ∧ B = D := by
  constructor
  · intro he
    exact List.append_inj he h
  · rintro ⟨rfl, rfl⟩
    rfl

lemma drop_decompose (other : List Nat) (oi2 n : Nat) :
    other.drop oi2 = (other.drop oi2).take n ++ other.drop (oi2 + n) := by
  conv_lhs => rw [← List.take_append_drop n (other.drop oi2)]
  rw [List.drop_drop]

lemma length_take_drop {other : List Nat} {oi2 n : Nat} (h : oi2 + n ≤ other.length) :
    ((other.drop oi2).take n).length = n := by
  simp only [List.length_take, List.length_drop]
  omega

lemma drop_cons_of_getElem {other : List Nat} {oi c : Nat} (h : other[oi]? = some c) :
    other.drop oi = c :: other.drop (oi + 1) := by
  have hlt : oi < other.length := get?_some_lt h
  have h2 : other[oi] = c := by
    have h3 := List.getElem?_eq_getElem hlt
    rw [h3] at h
    injection h
  rw [List.drop_eq_getElem_cons hlt, h2]

/-- The label-body part of one comparison step: given the substring check
tower of the source, the outcome is exactly whether the case-folded label text
plus the rest of the chain matches the case-folded rest of the string. -/
lemma eqFuel_label_substep (q : QuestionName) (other l : List Nat)
    (ls : List (List Nat)) (i oi2 : Nat)
    (h1 : 1 ≤ l.length)
    (hbd : i + 1 + l.length ≤ q.buf.length)
    (IH : ∀ oi', oi' ≤ other.length →
      q.eqFuel other (ls.length + 1) (i + 1 + l.length) oi' =
        .ok (decide ((dotted (oi' != 0) ls).map toAsciiLowercase =
          (other.drop oi').map toAsciiLowercase))) :
    (if oi2 + l.length ≤ other.length then
       if i + 1 + l.length ≤ q.buf.length then
         if eq_ignore_ascii_case l ((other.drop oi2).take l.length) then
           q.eqFuel other (ls.length + 1) (i + 1 + l.length) (oi2 + l.length)
         else .ok false
       else .crash
     else .ok false) =
      .ok (decide ((l ++ dotted true ls).map toAsciiLowercase =
        (other.drop oi2).map toAsciiLowercase)) := by
  by_cases hsub : oi2 + l.length ≤ other.length
  · rw [if_pos hsub, if_pos hbd]
    have hlen_take : ((other.drop oi2).take l.length).length = l.length := length_take_drop hsub
    by_cases heq : eq_ignore_ascii_case l ((other.drop oi2).take l.length) = true
    · rw [if_pos heq, IH (oi2 + l.length) (by omega)]
      have hfold : l.map toAsciiLowercase =
          ((other.drop oi2).take l.length).map toAsciiLowercase := by
        simpa [eq_ignore_ascii_case] using heq
      have hd2 : ((oi2 + l.length) != 0) = true := by
        simp only [bne_iff_ne, ne_eq]
        omega
      rw [hd2]
      congr 1
      rw [decide_eq_decide]
      constructor
      · intro hrest
        conv_rhs => rw [drop_decompose other oi2 l.length]
        rw [List.map_append, List.map_append, hfold, hrest]
      · intro hq
        rw [drop_decompose other oi2 l.length, List.map_append, List.map_append] at hq
        exact (List.append_inj hq (by rw [List.length_map, List.length_map, hlen_take])).2
    · rw [if_neg heq]
      have hfoldne : ¬ (l.map toAsciiLowercase =
          ((other.drop oi2).take l.length).map toAsciiLowercase) := by
        simpa [eq_ignore_ascii_case] using heq
      have hQ : ¬ ((l ++ dotted true ls).map toAsciiLowercase =
          (other.drop oi2).map toAsciiLowercase) := by
        intro hq
        apply hfoldne
        rw [drop_decompose other oi2 l.length, List.map_append, List.map_append] at hq
        exact (List.append_inj hq (by rw [List.length_map, List.length_map, hlen_take])).1
      simp only [TravResult.ok.injEq]
      simp
      simpa using hQ
  · rw [if_neg hsub]
    have hQ : ¬ ((l ++ dotted true ls).map toAsciiLowercase =
        (other.drop oi2).map toAsciiLowercase) := by
      intro hq
      have hlq := congrArg List.length hq
      simp only [List.length_map, List.length_append, List.length_drop] at hlq
      omega
    simp only [TravResult.ok.injEq]
    simp
    simpa using hQ

/-- Comparing a pointer-free chain against a string suffix: the loop returns
exactly whether the case-folded dotted label text (with a leading `.` expected
iff the string cursor is not at the string's start) equals the case-folded
remainder of the string. -/
lemma eqFuel_chainAt : ∀ (ls : List (List Nat)) (q : QuestionName) (other : List Nat)
    (i oi : Nat),
    chainAt q.buf i ls = true → oi ≤ other.length →
    q.eqFuel other (ls.length + 1) i oi =
      .ok (decide ((dotted (oi != 0) ls).map toAsciiLowercase =
        (other.drop oi).map toAsciiLowercase)) := by
  intro ls
  induction ls with
  | nil =>
    intro q other i oi h hoi
    have hterm : q.buf[i]? = some 0 := by
      simp only [chainAt, labelsAt, Bool.true_and, beq_iff_eq, labelsSize,
        List.map_nil, List.sum_nil, Nat.add_zero] at h
      exact h
    simp only [List.length_nil]
    rw [eqFuel_step_terminator other 0 oi hterm (by simp [is_pointer]) (by simp [mask_len])]
    congr 1
    rw [decide_eq_decide]
    simp only [dotted, List.map_nil]
    constructor
    · intro he
      subst he
      rw [List.drop_length]
      rfl
    · intro he
      have hd : other.drop oi = [] := by
        cases hdrop : other.drop oi with
        | nil => rfl
        | cons a t => rw [hdrop] at he; simp at he
      have hlen := congrArg List.length hd
      simp only [List.length_drop, List.length_nil] at hlen
      omega
  | cons l ls ih =>
    intro q other i oi h hoi
    have hch : labelAt q.buf i l = true ∧ chainAt q.buf (i + 1 + l.length) ls = true := by
      simp only [chainAt, labelsAt, Bool.and_eq_true] at h ⊢
      obtain ⟨⟨hl, hrest⟩, hterm⟩ := h
      refine ⟨hl, hrest, ?_⟩
      have he : i + labelsSize (l :: ls) = i + 1 + l.length + labelsSize ls := by
        rw [labelsSize_cons]
        omega
      rw [← he]
      exact hterm
    obtain ⟨hl, hchain⟩ := hch
    obtain ⟨hg, h1, h63, hsl, hbd⟩ := labelAt_facts hl
    have hpf : is_pointer l.length = false := by
      have hd : l.length / 64 = 0 := Nat.div_eq_of_lt (by omega)
      simp [is_pointer, hd]
    have hml : mask_len l.length = l.length := Nat.mod_eq_of_lt (by omega)
    have hz : mask_len l.length ≠ 0 := by rw [hml]; omega
    have hIH : ∀ oi', oi' ≤ other.length →
        q.eqFuel other (ls.length + 1) (i + 1 + l.length) oi' =
          .ok (decide ((dotted (oi' != 0) ls).map toAsciiLowercase =
            (other.drop oi').map toAsciiLowercase)) :=
      fun oi' hoi' => ih q other (i + 1 + l.length) oi' hchain hoi'
    simp only [List.length_cons]
    by_cases hoi0 : oi = 0
    · subst hoi0
      rw [eqFuel_step_label other (ls.length + 1) 0 0 hg hpf hz (Or.inl ⟨rfl, rfl⟩)]
      rw [hml, hsl]
      rw [eqFuel_label_substep q other l ls i 0 h1 hbd hIH]
      congr 1
    · by_cases hdot : other[oi]? = some 46
      · rw [eqFuel_step_label other (ls.length + 1) oi (oi + 1) hg hpf hz
          (Or.inr ⟨hoi0, hdot, rfl⟩)]
        rw [hml, hsl]
        rw [eqFuel_label_substep q other l ls i (oi + 1) h1 hbd hIH]
        congr 1
        rw [decide_eq_decide]
        rw [drop_cons_of_getElem hdot]
        have hbne : (oi != 0) = true := by simp [hoi0]
        rw [hbne]
        have hde : dotted true (l :: ls) = 46 :: (l ++ dotted true ls) := by
          simp [dotted]
        rw [hde]
        simp only [List.map_cons]
        constructor
        · intro he
          rw [he]
        · intro he
          injection he
      · rw [eqFuel_step_dot_mismatch other (ls.length + 1) oi hg hpf hz hoi0 hdot]
        congr 1
        symm
        rw [decide_eq_false_iff_not]
        have hbne : (oi != 0) = true := by simp [hoi0]
        rw [hbne]
        intro hq
        cases hoc : other[oi]? with
        | none =>
          have hlen : other.length ≤ oi := by
            by_contra hc
            rw [List.getElem?_eq_getElem (by omega)] at hoc
            simp at hoc
          have hnil : other.drop oi = [] := List.drop_eq_nil_of_le (by omega)
          rw [hnil] at hq
          simp [dotted] at hq
        | some c =>
          have hc46 : c ≠ 46 := fun hce => hdot (hce ▸ hoc)
          rw [drop_cons_of_getElem hoc] at hq
          have hde : dotted true (l :: ls) = 46 :: (l ++ dotted true ls) := by
            simp [dotted]
          rw [hde] at hq
          simp only [List.map_cons] at hq
          injection hq with h46 htail
          have hcdot : toAsciiLowercase c = 46 := by
            rw [← h46]
            decide
          exact hc46 (toAsciiLowercase_eq_dot.mp hcdot)

/-! ### C6, equality against a string -/

/-- C6: the equality predicate walks a pointer-free label chain and the string
in lock-step, comparing ASCII-case-insensitively with a literal `.` between
labels, returning true exactly when chain and string are simultaneously
exhausted: for every such chain and string it returns precisely whether the
case-folded dotted name equals the case-folded string; in particular a name
encoding `Example.COM` equals `example.com` and `EXAMPLE.COM` but not
`example.co`, `example.com.`, or `exampleXcom`. -/
theorem eq_str_lockstep_case_insensitive :
    (∀ (q : QuestionName) (other : List Nat) (ls : List (List Nat)),
      chainAt q.buf q.start ls = true →
      q.eqFuel other (ls.length + 1) q.start 0 =
        .ok (decide ((dotJoin ls).map toAsciiLowercase = other.map toAsciiLowercase))) ∧
    ((QuestionName.mk [7, 69, 120, 97, 109, 112, 108, 101, 3, 67, 79, 77, 0] 0 0).eqFuel
        [101, 120, 97, 109, 112, 108, 101, 46, 99, 111, 109] 3 0 0 = .ok true ∧
     (QuestionName.mk [7, 69, 120, 97, 109, 112, 108, 101, 3, 67, 79, 77, 0] 0 0).eqFuel
        [69, 88, 65, 77, 80, 76, 69, 46, 67, 79, 77] 3 0 0 = .ok true ∧
     (QuestionName.mk [7, 69, 120, 97, 109, 112, 108, 101, 3, 67, 79, 77, 0] 0 0).eqFuel
        [101, 120, 97, 109, 112, 108, 101, 46, 99, 111] 3 0 0 = .ok false ∧
     (QuestionName.mk [7, 69, 120, 97, 109, 112, 108, 101, 3, 67, 79, 77, 0] 0 0).eqFuel
        [101, 120, 97, 109, 112, 108, 101, 46, 99, 111, 109, 46] 3 0 0 = .ok false ∧
     (QuestionName.mk [7, 69, 120, 97, 109, 112, 108, 101, 3, 67, 79, 77, 0] 0 0).eqFuel
        [101, 120, 97, 109, 112, 108, 101, 88, 99, 111, 109] 3 0 0 = .ok false) := by
  constructor
  · intro q other ls h
    rw [eqFuel_chainAt ls q other q.start 0 h (by omega)]
    congr 1
    rw [decide_eq_decide]
    rw [show ((0 : Nat) != 0) = false from rfl, dotted_false_eq_dotJoin, List.drop_zero]
  · exact ⟨by decide, by decide, by decide, by decide, by decide⟩

/-- Witness for C6's general clause at the `Example.COM` buffer compared
against `example.com`. -/
theorem eq_str_lockstep_case_insensitive_witness :
    (QuestionName.mk [7, 69, 120, 97, 109, 112, 108, 101, 3, 67, 79, 77, 0] 0 0).eqFuel
        [101, 120, 97, 109, 112, 108, 101, 46, 99, 111, 109] 3 0 0 =
      .ok (decide ((dotJoin [[69, 120, 97, 109, 112, 108, 101], [67, 79, 77]]).map
          toAsciiLowercase =
        ([101, 120, 97, 109, 112, 108, 101, 46, 99, 111, 109] : List Nat).map
          toAsciiLowercase)) :=
  eq_str_lockstep_case_insensitive.1
    (QuestionName.mk [7, 69, 120, 97, 109, 112, 108, 101, 3, 67, 79, 77, 0] 0 0)
    [101, 120, 97, 109, 112, 108, 101, 46, 99, 111, 109]
    [[69, 120, 97, 109, 112, 108, 101], [67, 79, 77]]
    (by decide)
